import Mathlib

/-!
Shallow embedding of the `websocket-mqtt` MQTT 3.1.1 client (TypeScript):
the buffer codec primitives (`src/utils/buffer.ts`), the packet wire codec
(`src/packets/encode.ts`, `src/packets/decode.ts`) and the observable parts
of the connection state machine (`src/connection.ts`) and the client session
layer (`src/base.ts`).

Modelling conventions:
* A JS `Uint8Array` is a `List Nat`; writing into it truncates mod 256
  (JS `ToUint8`), so writer primitives reduce stored values `% 256`.
* A JS string is represented by its UTF-8 byte sequence (`List Nat`):
  `TextEncoder.encode` / `TextDecoder.decode` are the identity in the model.
* Reading `buffer[i]` out of range yields JS `undefined`, modelled as
  `none : Option Nat`; in JS arithmetic and bitwise contexts `undefined`
  coerces to `0` (`ToInt32(NaN) = 0`), modelled by `jsNum`.
* A thrown JS exception is `Except.error`; the decoder's `null`
  ("incomplete") result is `Except.ok none`.
-/

namespace WsMqtt

/-- JS coercion applied to an indexed read used in an arithmetic or bitwise
context: an in-range byte is itself, `undefined` coerces to `0`. -/
def jsNum (b : Option Nat) : Nat := b.getD 0

/-! ### Buffer codec primitives: writer (`createPacketWriter`, utils/buffer.ts)

The growable write buffer is modelled by the list of bytes it accumulates;
each `write*` primitive is the byte sequence it appends. -/

/-- `writeByte`: stores one byte; `Uint8Array` assignment truncates mod 256. -/
def writeByte (value : Nat) : List Nat := [value % 256]

/-- `writeUint16`: big-endian, `(value >> 8) & 0xff` then `value & 0xff`. -/
def writeUint16 (value : Nat) : List Nat := [(value >>> 8) &&& 0xff, value &&& 0xff]

/-- `writeBytes`: appends raw bytes (`Uint8Array.set` truncates mod 256). -/
def writeBytes (data : List Nat) : List Nat := data.map (fun b => b % 256)

/-- `writeString`: uint16 byte-length prefix, then the UTF-8 bytes. -/
def writeString (value : List Nat) : List Nat :=
  writeUint16 value.length ++ writeBytes value

/-- `writeBinary`: same prefix convention as `writeString`. -/
def writeBinary (data : List Nat) : List Nat :=
  writeUint16 data.length ++ writeBytes data

/-- `writeVariableInt`: MQTT variable-length integer; do-while emitting
`value % 128`, with `0x80` or-ed in when a nonzero quotient remains. -/
def writeVariableInt (value : Nat) : List Nat :=
  if h : value / 128 = 0 then [value % 128]
  else (value % 128 ||| 0x80) :: writeVariableInt (value / 128)
decreasing_by
  have hv : value ≠ 0 := by
    intro h0
    exact h (by simp [h0])
  exact Nat.div_lt_self (Nat.pos_of_ne_zero hv) (by norm_num)

/-! ### Buffer codec primitives: reader (`createPacketReader`, utils/buffer.ts)

The read cursor is an explicit `position` over an immutable buffer; each
primitive returns its result together with the updated position. The
source performs no bounds checks: an out-of-range read yields `undefined`
(`none` here), and in arithmetic contexts that `undefined` behaves as `0`. -/

/-- `remaining` getter: `buffer.length - position` (a JS number, possibly
negative once the cursor has run past the end). -/
def remaining (buffer : List Nat) (position : Nat) : Int :=
  (buffer.length : Int) - position

/-- `readByte`: `buffer[position++]` — `undefined` (`none`) out of range. -/
def readByte (buffer : List Nat) (position : Nat) : Option Nat × Nat :=
  (buffer[position]?, position + 1)

/-- `readUint16`: `(buffer[position] << 8) | buffer[position + 1]`, no bounds
check (out-of-range bytes coerce to 0). -/
def readUint16 (buffer : List Nat) (position : Nat) : Nat × Nat :=
  ((jsNum buffer[position]? <<< 8) ||| jsNum buffer[position + 1]?, position + 2)

/-- `readBytes`: `buffer.subarray(position, position + length)` (clamped). -/
def readBytes (buffer : List Nat) (position length : Nat) : List Nat × Nat :=
  ((buffer.drop position).take length, position + length)

/-- `readString`: uint16 length prefix then that many bytes, decoded as a
string (strings are modelled by their UTF-8 bytes, so decoding is identity). -/
def readString (buffer : List Nat) (position : Nat) : List Nat × Nat :=
  let length := (jsNum buffer[position]? <<< 8) ||| jsNum buffer[position + 1]?
  ((buffer.drop (position + 2)).take length, position + 2 + length)

/-- The do-while loop of `readVariableInt`, compiled to recursion over the
unread tail of the buffer. Reading past the end yields `undefined`, which
contributes `0` (`undefined & 0x7f`) and clears the continuation test
(`undefined & 0x80` is `0`), so the loop exits; the cursor still advances. -/
def readVariableIntAux : List Nat → Nat → Nat → Nat × Nat
  | [], value, _ =>
    -- byte = undefined: value += 0 * multiplier; continuation bit clear
    (value, 1)
  | byte :: rest, value, multiplier =>
    if byte &&& 0x80 ≠ 0 then
      let r := readVariableIntAux rest (value + (byte &&& 0x7f) * multiplier) (multiplier * 128)
      (r.1, r.2 + 1)
    else (value + (byte &&& 0x7f) * multiplier, 1)

/-- `readVariableInt`: runs the do-while loop at the current cursor. -/
def readVariableInt (buffer : List Nat) (position : Nat) : Nat × Nat :=
  let r := readVariableIntAux (buffer.drop position) 0 1
  (r.1, position + r.2)

/-- `readRest`: `buffer.subarray(position)`, cursor moved to the end. -/
def readRest (buffer : List Nat) (position : Nat) : List Nat × Nat :=
  (buffer.drop position, buffer.length)

/-! ### Packet constants (`src/packets/constants.ts`) -/

def PacketType.CONNECT : Nat := 1
def PacketType.CONNACK : Nat := 2
def PacketType.PUBLISH : Nat := 3
def PacketType.PUBACK : Nat := 4
def PacketType.SUBSCRIBE : Nat := 8
def PacketType.SUBACK : Nat := 9
def PacketType.PINGREQ : Nat := 12
def PacketType.PINGRESP : Nat := 13
def PacketType.DISCONNECT : Nat := 14

/-- `PROTOCOL_NAME = "MQTT"` as UTF-8 bytes. -/
def PROTOCOL_NAME : List Nat := [77, 81, 84, 84]

/-- `PROTOCOL_VERSION = 4` (MQTT 3.1.1). -/
def PROTOCOL_VERSION : Nat := 4

def DEFAULT_KEEPALIVE_SECONDS : Nat := 60

/-! ### Incoming packets (`src/packets/types.ts`, broker-to-client union) -/

/-- The `IncomingPacket` union. Strings are UTF-8 byte lists. A CONNACK
`returnCode` is `Option Nat` because `decodeConnack` reads it with an
unchecked `readByte`, which can yield JS `undefined` on a short body. -/
inductive IncomingPacket where
  | connack (sessionPresent : Bool) (returnCode : Option Nat)
  | publish (topic : List Nat) (payload : List Nat) (qos : Nat)
      (retain : Bool) (dup : Bool) (messageId : Option Nat)
  | puback (messageId : Nat)
  | suback (messageId : Nat) (granted : List Nat)
  | pingresp
deriving DecidableEq

/-- `DecodeResult` (`src/packets/decode.ts`). -/
structure DecodeResult where
  packet : IncomingPacket
  bytesConsumed : Nat
deriving DecidableEq

/-! ### Packet decoding (`src/packets/decode.ts`) -/

/-- `decodeConnack`: ack-flags byte (bit0 = session present), then the
return-code byte, both read without bounds checks. -/
def decodeConnack (payload : List Nat) : IncomingPacket :=
  .connack ((jsNum payload[0]? &&& 0x01) = 1) payload[1]?

/-- The `while (reader.remaining > 0) granted.push(reader.readByte())` loop
of `decodeSuback`, over the unread tail of the payload. -/
def readGranted : List Nat → List Nat
  | [] => []
  | byte :: rest => byte :: readGranted rest

/-- `decodeSuback`: message id, then one granted-QoS byte per topic. -/
def decodeSuback (payload : List Nat) : IncomingPacket :=
  .suback (readUint16 payload 0).1 (readGranted (payload.drop 2))

/-- `decodePublish`: topic string, message id only when the QoS bits of the
fixed-header flags are nonzero, rest of the payload slice as application
payload. -/
def decodePublish (payload : List Nat) (flags : Nat) : IncomingPacket :=
  let s := readString payload 0
  let qos := (flags >>> 1) &&& 0x03
  if qos > 0 then
    let m := readUint16 payload s.2
    .publish s.1 (readRest payload m.2).1 qos
      (flags &&& 0x01 != 0) (flags &&& 0x08 != 0) (some m.1)
  else
    .publish s.1 (readRest payload s.2).1 qos
      (flags &&& 0x01 != 0) (flags &&& 0x08 != 0) none

/-- `decodePuback`: message id only. -/
def decodePuback (payload : List Nat) : IncomingPacket :=
  .puback (readUint16 payload 0).1

/-- The `switch (packetType)` of `decode`: a recognized type dispatches to
its decoder, the default branch throws. -/
def dispatch (packetType flags : Nat) (payload : List Nat) :
    Except String IncomingPacket :=
  if packetType = PacketType.CONNACK then .ok (decodeConnack payload)
  else if packetType = PacketType.SUBACK then .ok (decodeSuback payload)
  else if packetType = PacketType.PUBLISH then .ok (decodePublish payload flags)
  else if packetType = PacketType.PUBACK then .ok (decodePuback payload)
  else if packetType = PacketType.PINGRESP then .ok .pingresp
  else .error ("Unknown MQTT packet type: " ++ toString packetType)

/-- `decode`: fixed-header byte, remaining-length variable integer,
completeness check, then per-type dispatch on the sliced-out payload.
`Except.ok none` is the incomplete indicator (`null` in the source);
`Except.error` is a thrown exception. -/
def decode (bytes : List Nat) : Except String (Option DecodeResult) :=
  if bytes.length < 2 then .ok none
  else
    let firstByte := jsNum bytes[0]?
    let packetType := firstByte >>> 4
    let flags := firstByte &&& 0x0f
    let r := readVariableInt bytes 1
    let remainingLength := r.1
    let headerLength := r.2
    let totalLength := headerLength + remainingLength
    if bytes.length < totalLength then .ok none
    else
      let payload := (readBytes bytes headerLength remainingLength).1
      match dispatch packetType flags payload with
      | .error e => .error e
      | .ok packet => .ok (some ⟨packet, totalLength⟩)

/-- The declared total length of the packet at the head of `bytes`:
fixed-header length (1 + remaining-length-encoding) plus remaining-length,
exactly as `decode` computes it. -/
def declaredTotalLength (bytes : List Nat) : Nat :=
  (readVariableInt bytes 1).2 + (readVariableInt bytes 1).1

/-! ### Outgoing packets and encoding (`src/packets/encode.ts`)

The client-to-broker packet variants carry the fields the encoders read.
The concrete `OutgoingPacket` union alias lives in the packet type
declarations; its variant set is the client-to-broker half of the tagged
packet union (CONNECT, SUBSCRIBE, PUBLISH, PUBACK, PINGREQ, DISCONNECT). -/

structure WillMessage where
  topic : List Nat
  payload : List Nat
  qos : Nat
  retain : Bool
deriving DecidableEq

structure ConnectPacket where
  clientId : List Nat
  username : Option (List Nat)
  password : Option (List Nat)
  /-- `keepalive` as passed to the encoder; `undefined` falls back to
  `DEFAULT_KEEPALIVE_SECONDS` via `??`. -/
  keepalive : Option Nat
  clean : Bool
  will : Option WillMessage
deriving DecidableEq

structure SubscribePacket where
  messageId : Nat
  subscriptions : List (List Nat × Nat)
deriving DecidableEq

structure PublishPacket where
  topic : List Nat
  payload : List Nat
  qos : Nat
  retain : Bool
  dup : Bool
  messageId : Option Nat
deriving DecidableEq

inductive OutgoingPacket where
  | connect (p : ConnectPacket)
  | subscribe (p : SubscribePacket)
  | publish (p : PublishPacket)
  | puback (messageId : Nat)
  | pingreq
  | disconnect
deriving DecidableEq

/-- The numeric `type` discriminant carried by each outgoing packet object. -/
def typeOf : OutgoingPacket → Nat
  | .connect _ => PacketType.CONNECT
  | .subscribe _ => PacketType.SUBSCRIBE
  | .publish _ => PacketType.PUBLISH
  | .puback _ => PacketType.PUBACK
  | .pingreq => PacketType.PINGREQ
  | .disconnect => PacketType.DISCONNECT

/-- `writePacket`: fixed header byte `(type << 4) | (flags & 0x0f)`,
remaining-length variable integer, then the body bytes. -/
def writePacket (type flags : Nat) (body : List Nat) : List Nat :=
  writeByte ((type <<< 4) ||| (flags &&& 0x0f)) ++ writeVariableInt body.length
    ++ writeBytes body

/-- The connect-flags byte assembled by `encodeConnect`. -/
def connectFlags (packet : ConnectPacket) : Nat :=
  let f1 := if packet.clean then 0x02 else 0
  let f2 := match packet.will with
    | some will => f1 ||| 0x04 ||| (will.qos <<< 3) ||| (if will.retain then 0x20 else 0)
    | none => f1
  let f3 := if packet.password.isSome then f2 ||| 0x40 else f2
  if packet.username.isSome then f3 ||| 0x80 else f3

/-- `encodeConnect`: protocol name/level, connect flags, keepalive, then
client id, optional will topic+payload, optional username, password. -/
def encodeConnect (packet : ConnectPacket) : List Nat :=
  writePacket PacketType.CONNECT 0
    (writeString PROTOCOL_NAME ++ writeByte PROTOCOL_VERSION
      ++ writeByte (connectFlags packet)
      ++ writeUint16 (packet.keepalive.getD DEFAULT_KEEPALIVE_SECONDS)
      ++ writeString packet.clientId
      ++ (match packet.will with
          | some will => writeString will.topic ++ writeBinary will.payload
          | none => [])
      ++ (match packet.username with
          | some username => writeString username
          | none => [])
      ++ (match packet.password with
          | some password => writeString password
          | none => []))

/-- `encodeSubscribe`: fixed-header flags forced to `0x02`; message id, then
(topic, requested QoS) pairs. -/
def encodeSubscribe (packet : SubscribePacket) : List Nat :=
  writePacket PacketType.SUBSCRIBE 0x02
    (writeUint16 packet.messageId
      ++ (packet.subscriptions.map (fun sub => writeString sub.1 ++ writeByte sub.2)).flatten)

/-- The fixed-header flags byte of `encodePublish`: dup bit 3, QoS bits 1-2,
retain bit 0. -/
def publishFlags (packet : PublishPacket) : Nat :=
  ((if packet.dup then 0x08 else 0) ||| ((packet.qos &&& 0x03) <<< 1))
    ||| (if packet.retain then 0x01 else 0)

/-- `encodePublish`: topic string, message id uint16 only when
`qos > 0 && messageId !== undefined`, then the raw payload bytes. -/
def encodePublish (packet : PublishPacket) : List Nat :=
  writePacket PacketType.PUBLISH (publishFlags packet)
    (writeString packet.topic
      ++ (match packet.messageId with
          | some messageId => if packet.qos > 0 then writeUint16 messageId else []
          | none => [])
      ++ writeBytes packet.payload)

/-- `encodePuback`: message id only. -/
def encodePuback (messageId : Nat) : List Nat :=
  writePacket PacketType.PUBACK 0 (writeUint16 messageId)

/-- `encodePingreq`: fixed 2-byte packet. -/
def encodePingreq : List Nat := [PacketType.PINGREQ <<< 4, 0]

/-- `encodeDisconnect`: fixed 2-byte packet. -/
def encodeDisconnect : List Nat := [PacketType.DISCONNECT <<< 4, 0]

/-- `encodePacket`: the switch over the outgoing-packet union; PINGREQ and
DISCONNECT cases are commented out in the source, so they fall through to
the default branch, which throws. -/
def encodePacket : OutgoingPacket → Except String (List Nat)
  | .connect p => .ok (encodeConnect p)
  | .subscribe p => .ok (encodeSubscribe p)
  | .publish p => .ok (encodePublish p)
  | .puback messageId => .ok (encodePuback messageId)
  | packet => .error ("Unknown packet type: " ++ toString (typeOf packet))

/-- The `while (offset < bytes.length)` loop of `decodeAll`: repeatedly
apply `decode` at the current offset, collect fully-formed packets, stop at
the first incomplete result; a thrown decode error propagates out. -/
def decodeAllLoop (bytes : List Nat) (offset : Nat) (packets : List IncomingPacket) :
    Except String (List IncomingPacket × List Nat) :=
  if ho : offset < bytes.length then
    match hd : decode (bytes.drop offset) with
    | .error e => .error e
    | .ok none => .ok (packets, bytes.drop offset)
    | .ok (some result) =>
      decodeAllLoop bytes (offset + result.bytesConsumed) (packets ++ [result.packet])
  else .ok (packets, bytes.drop offset)
termination_by bytes.length - offset
decreasing_by
  have hpos : 0 < result.bytesConsumed := by
    simp only [decode] at hd
    split at hd
    · exact absurd hd (by simp)
    · split at hd
      · exact absurd hd (by simp)
      · split at hd
        · exact absurd hd (by simp)
        · obtain ⟨rfl⟩ := Except.ok.inj hd |> Option.some.inj
          simp only [readVariableInt]
          omega
  omega

/-- `decodeAll`: ordered packets plus the unconsumed byte remainder. -/
def decodeAll (bytes : List Nat) : Except String (List IncomingPacket × List Nat) :=
  decodeAllLoop bytes 0 []

/-! ### Connection state machine (`src/connection.ts`)

The mutable connection-local state that packet dispatch touches is the
`connected` flag and the keepalive interval handle; the message-id counter
is threaded explicitly. Observable effects — events emitted through the
event emitter, packets passed to `send`, raw bytes passed to `sendRaw`,
and calls to `close()` — are collected in a `DispatchResult`. -/

structure ConnState where
  connected : Bool
  /-- whether a keepalive `setInterval` handle is held. -/
  pingActive : Bool
deriving DecidableEq

/-- The connection-level events (`ConnectionEvents`): `connect`, `message`,
`packet`, `error`, `close`. -/
inductive ConnEvent where
  | connectEv
  | messageEv (topic : List Nat) (payload : List Nat)
  | packetEv (packet : IncomingPacket)
  | errorEv (message : String)
  | closeEv
deriving DecidableEq

/-- `nextMessageId`: returns the updated counter value and stores it
(`lastMessageId = (messageId % 65_535) + 1; return lastMessageId`).
The result is `(value returned, new lastMessageId)`; the counter is
initialised to 1 when the connection is created. -/
def nextMessageId (lastMessageId : Nat) : Nat × Nat :=
  let messageId := lastMessageId
  let lastMessageId := (messageId % 65535) + 1
  (lastMessageId, lastMessageId)

/-- `startPingInterval`: installs the keepalive timer only when the
negotiated keepalive is positive. -/
def startPingInterval (keepalive : Nat) (s : ConnState) : ConnState :=
  if keepalive > 0 then { s with pingActive := true } else s

/-- `getConnackErrorMessage`: the five refusal reasons, with a generic
fallback (`errorMessages[returnCode] || ...`). -/
def getConnackErrorMessage (returnCode : Nat) : String :=
  if returnCode = 1 then "Connection refused: unacceptable protocol version"
  else if returnCode = 2 then "Connection refused: identifier rejected"
  else if returnCode = 3 then "Connection refused: server unavailable"
  else if returnCode = 4 then "Connection refused: bad username or password"
  else if returnCode = 5 then "Connection refused: not authorized"
  else "Connection refused: " ++ toString returnCode

/-- `getConnackErrorMessage` as invoked on a decoded return code, which is
JS `undefined` when the CONNACK body was short (template-literal rendering). -/
def getConnackErrorMessageJS : Option Nat → String
  | some returnCode => getConnackErrorMessage returnCode
  | none => "Connection refused: undefined"

/-- Observable outcome of `close()`: the state after it, the raw byte
sequences passed to `sendRaw`, and the connection-level events emitted.
`close()` sends DISCONNECT only when `connected`, clears the flag and the
keepalive timer, and contains no `events.emit` call at all. -/
structure CloseResult where
  state : ConnState
  sentRaw : List (List Nat)
  emitted : List ConnEvent
deriving DecidableEq

/-- `close()` (src/connection.ts): best-effort DISCONNECT, transport close,
`connected = false`, `clearInterval`; emits no events. -/
def connectionClose (s : ConnState) : CloseResult :=
  { state := { connected := false, pingActive := false }
    sentRaw := if s.connected then [encodeDisconnect] else []
    emitted := [] }

/-- Observable outcome of dispatching one inbound packet. -/
structure DispatchResult where
  state : ConnState
  emitted : List ConnEvent
  /-- packets passed to `send` (encoded via `encodePacket`). -/
  sent : List OutgoingPacket
  /-- raw bytes passed to `sendRaw` (by `close()`). -/
  sentRaw : List (List Nat)
  closeCalled : Bool
deriving DecidableEq

/-- `handlePacket2` (src/connection.ts): CONNACK return code 0 connects,
starts the keepalive timer and emits `connect`; a nonzero code emits an
`error` with the mapped message and calls `close()`. A QoS 1 PUBLISH with a
message id is auto-acked with a PUBACK before the message is surfaced.
PINGRESP is a no-op; anything else is re-emitted as a `packet` event. -/
def handlePacket2 (keepalive : Nat) (s : ConnState) :
    IncomingPacket → DispatchResult
  | .connack sessionPresent returnCode =>
    if returnCode = some 0 then
      { state := startPingInterval keepalive { s with connected := true }
        emitted := [.connectEv], sent := [], sentRaw := [], closeCalled := false }
    else
      let message := getConnackErrorMessageJS returnCode
      let c := connectionClose s
      { state := c.state, emitted := [.errorEv message] ++ c.emitted
        sent := [], sentRaw := c.sentRaw, closeCalled := true }
  | .publish topic payload qos _retain _dup messageId =>
    let acks := match messageId with
      | some m => if qos = 1 then [OutgoingPacket.puback m] else []
      | none => []
    { state := s, emitted := [.messageEv topic payload]
      sent := acks, sentRaw := [], closeCalled := false }
  | .pingresp =>
    { state := s, emitted := [], sent := [], sentRaw := [], closeCalled := false }
  | packet =>
    { state := s, emitted := [.packetEv packet]
      sent := [], sentRaw := [], closeCalled := false }

/-! ### Client session layer (`src/base.ts`)

Pending-request correlation: two maps keyed by message id. Requests are
identified here by their message id; settling a request is recorded as a
`Settlement` event. -/

/-- The two correlation maps (`pending.sub`, `pending.pub`), modelled by
the lists of message ids that currently hold an outstanding request. -/
structure PendingMaps where
  sub : List Nat
  pub : List Nat
deriving DecidableEq

/-- A resolution or rejection of an outstanding request. -/
inductive Settlement where
  | resolvedSub (messageId : Nat) (granted : List Nat)
  | rejectedSub (messageId : Nat) (message : String)
  | resolvedPub (messageId : Nat)
  | rejectedPub (messageId : Nat) (message : String)
deriving DecidableEq

/-- The `connection.on("close", ...)` handler registered by `createMqtt`
(src/base.ts): reject every pending subscribe, clear the map, reject every
pending publish, clear the map, re-emit `close`. -/
def baseOnClose (pending : PendingMaps) : PendingMaps × List Settlement :=
  (⟨[], []⟩,
    pending.sub.map (fun messageId => .rejectedSub messageId "Connection closed")
      ++ pending.pub.map (fun messageId => .rejectedPub messageId "Connection closed"))

/-- The explicit `close()` path of `createMqtt`: it calls
`connection.close()`, and the registered close-handler runs once for each
connection-level `close` event emitted during that call. `connection.close()`
emits none, so the fold is over the empty event list. -/
def clientClose (pending : PendingMaps) (s : ConnState) :
    PendingMaps × List Settlement :=
  (connectionClose s).emitted.foldl
    (fun acc e =>
      match e with
      | ConnEvent.closeEv =>
        let o := baseOnClose acc.1
        (o.1, acc.2 ++ o.2)
      | _ => acc)
    (pending, [])

end WsMqtt

namespace WsMqtt

/-! ### Arithmetic helper lemmas for the bit operations of the codec -/

theorem and_127_eq_mod (a : Nat) : a &&& 127 = a % 128 := by
  have h : (127 : Nat) = 2 ^ 7 - 1 := by norm_num
  rw [h, Nat.and_pow_two_sub_one_eq_mod]

theorem and_255_eq_mod (a : Nat) : a &&& 255 = a % 256 := by
  have h : (255 : Nat) = 2 ^ 8 - 1 := by norm_num
  rw [h, Nat.and_pow_two_sub_one_eq_mod]

theorem and_128_of_lt {a : Nat} (h : a < 128) : a &&& 128 = 0 := by
  have h2 : (128 : Nat) = 2 ^ 7 := by norm_num
  rw [h2, Nat.and_two_pow]
  rw [Nat.testBit_lt_two_pow (by norm_num at h ⊢; omega)]
  simp

theorem or_128_of_lt {a : Nat} (h : a < 128) : a ||| 128 = a + 128 := by
  have h2 := Nat.mul_add_lt_is_or (i := 7) (b := a) (by norm_num; omega) 1
  have h3 : (2 : Nat) ^ 7 * 1 = 128 := by norm_num
  rw [h3] at h2
  rw [Nat.lor_comm] at h2
  omega

theorem and_128_of_or (a : Nat) (h : a < 128) : (a ||| 128) &&& 128 = 128 := by
  rw [or_128_of_lt h]
  have h2 : (128 : Nat) = 2 ^ 7 := by norm_num
  rw [h2, Nat.and_two_pow]
  have h3 : (a + 2 ^ 7).testBit 7 = true := by
    rw [Nat.testBit_to_div_mod]
    have : (a + 2 ^ 7) / 2 ^ 7 = 1 := by norm_num; omega
    rw [this]
    rfl
  rw [h3]
  simp

theorem uint16_roundtrip {n : Nat} (h : n < 65536) :
    (((n >>> 8) &&& 255) <<< 8) ||| (n &&& 255) = n := by
  rw [and_255_eq_mod, and_255_eq_mod]
  rw [Nat.shiftRight_eq_div_pow]
  have h8 : (2 : Nat) ^ 8 = 256 := by norm_num
  rw [h8]
  have hlt : n / 256 % 256 = n / 256 := Nat.mod_eq_of_lt (by omega)
  rw [hlt, Nat.shiftLeft_eq, h8]
  have hm : n % 256 < 2 ^ 8 := by omega
  have h2 := Nat.mul_add_lt_is_or hm (n / 256)
  rw [h8] at h2
  rw [Nat.mul_comm (n / 256) 256]
  omega

/-! ### Byte-range lemmas: every writer primitive emits bytes below 256 -/

theorem writeBytes_lt (l : List Nat) : ∀ b ∈ writeBytes l, b < 256 := by
  intro b hb
  simp only [writeBytes, List.mem_map] at hb
  obtain ⟨a, _, rfl⟩ := hb
  exact Nat.mod_lt _ (by norm_num)

theorem writeUint16_lt (n : Nat) : ∀ b ∈ writeUint16 n, b < 256 := by
  intro b hb
  simp only [writeUint16, List.mem_cons, List.not_mem_nil, or_false] at hb
  rcases hb with rfl | rfl
  · rw [and_255_eq_mod]; exact Nat.mod_lt _ (by norm_num)
  · rw [and_255_eq_mod]; exact Nat.mod_lt _ (by norm_num)

theorem writeString_lt (s : List Nat) : ∀ b ∈ writeString s, b < 256 := by
  intro b hb
  simp only [writeString, List.mem_append] at hb
  rcases hb with hb | hb
  · exact writeUint16_lt _ b hb
  · exact writeBytes_lt _ b hb

theorem writeVariableInt_lt (v : Nat) : ∀ b ∈ writeVariableInt v, b < 256 := by
  induction v using Nat.strong_induction_on with
  | _ v ih =>
    intro b hb
    rw [writeVariableInt] at hb
    split at hb
    · simp only [List.mem_cons, List.not_mem_nil, or_false] at hb
      subst hb
      exact lt_trans (Nat.mod_lt _ (by norm_num)) (by norm_num)
    case isFalse h =>
      simp only [List.mem_cons] at hb
      rcases hb with rfl | hb
      · rw [or_128_of_lt (Nat.mod_lt _ (by norm_num))]
        have := Nat.mod_lt v (y := 128) (by norm_num)
        omega
      · have hv : v ≠ 0 := by intro h0; exact h (by simp [h0])
        exact ih (v / 128) (Nat.div_lt_self (Nat.pos_of_ne_zero hv) (by norm_num)) b hb

theorem writeBytes_eq_self {l : List Nat} (h : ∀ b ∈ l, b < 256) :
    writeBytes l = l := by
  induction l with
  | nil => rfl
  | cons a t iht =>
    simp only [writeBytes, List.map_cons]
    rw [Nat.mod_eq_of_lt (h a (by simp))]
    have := iht (fun b hb => h b (by simp [hb]))
    simp only [writeBytes] at this
    rw [this]

theorem writeBytes_length (l : List Nat) : (writeBytes l).length = l.length := by
  simp [writeBytes]

/-! ### Variable-length integer: write/read inverse lemmas -/

/-- Reading the do-while loop over `writeVariableInt value ++ suffix`
recovers `value` (scaled into the accumulator) and consumes exactly the
emitted bytes. -/
theorem readVariableIntAux_write (value : Nat) :
    ∀ (suffix : List Nat) (acc multiplier : Nat),
      readVariableIntAux (writeVariableInt value ++ suffix) acc multiplier
        = (acc + value * multiplier, (writeVariableInt value).length) := by
  induction value using Nat.strong_induction_on with
  | _ value ih =>
    intro suffix acc multiplier
    rw [writeVariableInt]
    split
    case isTrue h =>
      have hlt : value < 128 := by omega
      have hmod : value % 128 = value := Nat.mod_eq_of_lt hlt
      simp only [List.cons_append, List.nil_append, readVariableIntAux]
      rw [if_neg (by rw [hmod, and_128_of_lt hlt]; simp)]
      rw [and_127_eq_mod, hmod, Nat.mod_eq_of_lt hlt]
      simp
    case isFalse h =>
      have hvpos : 0 < value := by
        rcases Nat.eq_zero_or_pos value with h0 | h0
        · exact absurd (by simp [h0]) h
        · exact h0
      have hmlt : value % 128 < 128 := Nat.mod_lt _ (by norm_num)
      simp only [List.cons_append, readVariableIntAux]
      rw [if_pos (by rw [and_128_of_or _ hmlt]; simp)]
      simp only [List.append_eq]
      rw [ih (value / 128) (Nat.div_lt_self hvpos (by norm_num)) suffix]
      simp only [List.length_cons, Prod.mk.injEq]
      refine ⟨?_, trivial⟩
      rw [and_127_eq_mod, or_128_of_lt hmlt]
      have hmm : (value % 128 + 128) % 128 = value % 128 := by omega
      rw [hmm]
      have hsplit : value % 128 + 128 * (value / 128) = value := Nat.mod_add_div value 128
      have hkey : value % 128 * multiplier + value / 128 * (multiplier * 128)
          = value * multiplier := by
        calc value % 128 * multiplier + value / 128 * (multiplier * 128)
            = (value % 128 + 128 * (value / 128)) * multiplier := by ring
          _ = value * multiplier := by rw [hsplit]
      omega

/-- `readVariableInt` at a cursor sitting on an encoded variable integer. -/
theorem readVariableInt_at (pre suf : List Nat) (value : Nat) :
    readVariableInt (pre ++ (writeVariableInt value ++ suf)) pre.length
      = (value, pre.length + (writeVariableInt value).length) := by
  simp only [readVariableInt, List.drop_left]
  rw [readVariableIntAux_write]
  simp

/-! ### C3: incomplete buffers decode to null -/

/-- C3: for every byte sequence that is empty, shorter than 2 bytes,
shorter than its declared total length, or whose remaining-length variable
integer needs more bytes than available, `decode` returns the incomplete
indicator (`Except.ok none`) and never throws. -/
theorem decode_incomplete_returns_null (bytes : List Nat)
    (h : bytes = [] ∨ bytes.length < 2 ∨ bytes.length < declaredTotalLength bytes
      ∨ bytes.length < (readVariableInt bytes 1).2) :
    decode bytes = .ok none := by
  rcases h with rfl | h | h | h
  · rfl
  · simp only [decode, if_pos h]
  · by_cases h2 : bytes.length < 2
    · simp only [decode, if_pos h2]
    · simp only [decode, if_neg h2]
      rw [if_pos (by simpa [declaredTotalLength] using h)]
  · by_cases h2 : bytes.length < 2
    · simp only [decode, if_pos h2]
    · simp only [decode, if_neg h2]
      rw [if_pos (by omega)]

/-- Witness for C3 at the test vector `[0x20, 0x02, 0x00]` (one byte short)
and at the empty buffer. -/
theorem decode_incomplete_returns_null_witness :
    decode [0x20, 0x02, 0x00] = .ok none ∧ decode [] = .ok none :=
  ⟨decode_incomplete_returns_null _ (Or.inr (Or.inr (Or.inl (by decide)))),
    decode_incomplete_returns_null _ (Or.inl rfl)⟩

/-! ### C9: unrecognized packet types -/

/-- C9 counterexample: `[0x00, 0x05]` has unrecognized packet type 0 in its
fixed-header high nibble, yet `decode` reports it as incomplete
(`Except.ok none`) rather than throwing, because the completeness check
runs before the type dispatch. -/
theorem decode_unknown_type_incomplete_counterexample :
    jsNum (([0x00, 0x05] : List Nat))[0]? >>> 4 = 0
      ∧ (0 : Nat) ∉ [PacketType.CONNACK, PacketType.SUBACK, PacketType.PUBLISH,
          PacketType.PUBACK, PacketType.PINGRESP]
      ∧ decode [0x00, 0x05] = .ok none :=
  ⟨rfl, by decide, rfl⟩

/-- C9 (amended): for every buffer that holds the complete declared packet
(at least 2 bytes and at least the declared total length) and whose
fixed-header high nibble is an unrecognized packet type, `decode` throws. -/
theorem decode_unknown_type_throws (bytes : List Nat)
    (h2 : ¬ bytes.length < 2)
    (hc : ¬ bytes.length < declaredTotalLength bytes)
    (ht : jsNum bytes[0]? >>> 4 ∉ [PacketType.CONNACK, PacketType.SUBACK,
      PacketType.PUBLISH, PacketType.PUBACK, PacketType.PINGRESP]) :
    decode bytes
      = .error ("Unknown MQTT packet type: " ++ toString (jsNum bytes[0]? >>> 4)) := by
  simp only [List.mem_cons, List.not_mem_nil, or_false, not_or] at ht
  obtain ⟨t1, t2, t3, t4, t5⟩ := ht
  simp only [decode, if_neg h2]
  rw [if_neg (by simpa [declaredTotalLength] using hc)]
  simp only [dispatch, if_neg t1, if_neg t2, if_neg t3, if_neg t4, if_neg t5]

/-- Witness for the amended C9 at `[0x00, 0x00]`: a complete 2-byte packet
of unrecognized type 0 makes `decode` throw. -/
theorem decode_unknown_type_throws_witness :
    decode [0x00, 0x00] = .error "Unknown MQTT packet type: 0" :=
  decode_unknown_type_throws [0x00, 0x00] (by decide) (by decide) (by decide)

/-! ### C5: the packet reader performs no bounds checks -/

/-- C5: every read primitive invoked past the available bytes yields a JS
`undefined` (`none`) or a silently coerced junk value, never a defined
bounds-violation error: `readByte` returns `undefined`, `readUint16`
returns 0, `readString` returns the empty string, `readVariableInt`
returns 0, and `remaining` goes negative — the reader has no error path at
all. -/
theorem reader_unchecked_reads_yield_undefined :
    readByte [] 0 = (none, 1)
      ∧ readByte [7] 1 = (none, 2)
      ∧ readUint16 [] 0 = (0, 2)
      ∧ readBytes [] 0 4 = ([], 4)
      ∧ readString [] 0 = ([], 2)
      ∧ readVariableInt [] 0 = (0, 1)
      ∧ readRest [] 5 = ([], 0)
      ∧ remaining [] 2 = -2 :=
  ⟨rfl, rfl, rfl, rfl, rfl, rfl, rfl, rfl⟩

/-! ### C6: message-id allocation -/

/-- C6: every value returned by `nextMessageId` lies in `[1, 65535]` (so 0
is never issued), and the value returned by the following call is the
successor, wrapping 65535 to 1. -/
theorem nextMessageId_range_and_wrap :
    ∀ lastMessageId : Nat,
      1 ≤ (nextMessageId lastMessageId).1
        ∧ (nextMessageId lastMessageId).1 ≤ 65535
        ∧ (nextMessageId lastMessageId).1 ≠ 0
        ∧ (nextMessageId (nextMessageId lastMessageId).2).1
            = (if (nextMessageId lastMessageId).1 = 65535 then 1
              else (nextMessageId lastMessageId).1 + 1) := by
  intro l
  simp only [nextMessageId]
  refine ⟨by omega, by omega, by omega, ?_⟩
  split <;> omega

/-! ### C7: close propagation to pending requests -/

/-- C7 (code bug): explicitly closing a `createMqtt` client holding two
pending subscribes and one pending publish leaves both correlation maps
untouched and settles nothing, because `connection.close()` never emits the
connection-level `close` event the rejection handler is registered for; the
(dead) handler itself would have rejected each request once with
"Connection closed" and cleared both maps. -/
theorem close_does_not_settle_pending :
    clientClose ⟨[1, 2], [3]⟩ ⟨true, true⟩ = (⟨[1, 2], [3]⟩, [])
      ∧ (connectionClose ⟨true, true⟩).emitted = []
      ∧ baseOnClose ⟨[1, 2], [3]⟩
          = (⟨[], []⟩, [.rejectedSub 1 "Connection closed",
              .rejectedSub 2 "Connection closed",
              .rejectedPub 3 "Connection closed"]) :=
  ⟨rfl, rfl, rfl⟩

/-! ### C8: CONNACK dispatch -/

/-- C8: dispatching a CONNACK with return code 0 sets the connected flag,
starts the keepalive timer and emits `connect`, without closing; any
nonzero code leaves `connected` false, emits an `error` carrying the mapped
refusal reason — the five specific messages for codes 1-5, the generic
fallback otherwise — and calls `close()`. -/
theorem connack_dispatch_spec (keepalive : Nat) (hk : 0 < keepalive)
    (s : ConnState) (sessionPresent : Bool) :
    ((handlePacket2 keepalive s (.connack sessionPresent (some 0))).state.connected = true
      ∧ (handlePacket2 keepalive s (.connack sessionPresent (some 0))).state.pingActive = true
      ∧ (handlePacket2 keepalive s (.connack sessionPresent (some 0))).emitted = [.connectEv]
      ∧ (handlePacket2 keepalive s (.connack sessionPresent (some 0))).closeCalled = false)
    ∧ (∀ returnCode : Nat, returnCode ≠ 0 →
        (handlePacket2 keepalive s (.connack sessionPresent (some returnCode))).state.connected
            = false
          ∧ (handlePacket2 keepalive s (.connack sessionPresent (some returnCode))).emitted
              = [.errorEv (getConnackErrorMessage returnCode)]
          ∧ (handlePacket2 keepalive s (.connack sessionPresent (some returnCode))).closeCalled
              = true)
    ∧ getConnackErrorMessage 1 = "Connection refused: unacceptable protocol version"
    ∧ getConnackErrorMessage 2 = "Connection refused: identifier rejected"
    ∧ getConnackErrorMessage 3 = "Connection refused: server unavailable"
    ∧ getConnackErrorMessage 4 = "Connection refused: bad username or password"
    ∧ getConnackErrorMessage 5 = "Connection refused: not authorized"
    ∧ (∀ returnCode : Nat, returnCode ∉ ([1, 2, 3, 4, 5] : List Nat) →
        getConnackErrorMessage returnCode
          = "Connection refused: " ++ toString returnCode) := by
  refine ⟨?_, ?_, rfl, rfl, rfl, rfl, rfl, ?_⟩
  · simp [handlePacket2, startPingInterval, hk]
  · intro returnCode hrc
    simp [handlePacket2, getConnackErrorMessageJS, connectionClose, hrc]
  · intro returnCode hrc
    simp only [List.mem_cons, List.not_mem_nil, or_false, not_or] at hrc
    obtain ⟨n1, n2, n3, n4, n5⟩ := hrc
    simp only [getConnackErrorMessage, if_neg n1, if_neg n2, if_neg n3, if_neg n4, if_neg n5]

/-- Witness for C8 at keepalive 60 from the awaiting-CONNACK state: return
code 0 connects, return code 3 maps to the server-unavailable reason and
closes. -/
theorem connack_dispatch_spec_witness :
    (handlePacket2 60 ⟨false, false⟩ (.connack false (some 0))).state.connected = true
      ∧ (handlePacket2 60 ⟨false, false⟩ (.connack false (some 3))).emitted
          = [.errorEv "Connection refused: server unavailable"]
      ∧ (handlePacket2 60 ⟨false, false⟩ (.connack false (some 3))).closeCalled = true := by
  have h := connack_dispatch_spec 60 (by norm_num) ⟨false, false⟩ false
  have h3 := h.2.1 3 (by norm_num)
  exact ⟨h.1.1, by rw [h3.2.1, h.2.2.2.2.1], h3.2.2⟩

/-! ### C10: the outgoing-packet encoder union -/

/-- C10: `encodePacket` throws "Unknown packet type" for PINGREQ (type 12)
and DISCONNECT (type 14) objects and succeeds exactly on the CONNECT,
SUBSCRIBE, PUBLISH and PUBACK variants; the PINGREQ/DISCONNECT wire bytes
come from the dedicated `encodePingreq`/`encodeDisconnect` 2-byte encoders,
and `close()` sends `encodeDisconnect`'s bytes directly when connected. -/
theorem encodePacket_union_spec :
    encodePacket .pingreq = .error "Unknown packet type: 12"
      ∧ encodePacket .disconnect = .error "Unknown packet type: 14"
      ∧ (∀ p, encodePacket (.connect p) = .ok (encodeConnect p))
      ∧ (∀ p, encodePacket (.subscribe p) = .ok (encodeSubscribe p))
      ∧ (∀ p, encodePacket (.publish p) = .ok (encodePublish p))
      ∧ (∀ messageId, encodePacket (.puback messageId) = .ok (encodePuback messageId))
      ∧ encodePingreq = [0xc0, 0x00]
      ∧ encodeDisconnect = [0xe0, 0x00]
      ∧ (∀ s : ConnState, s.connected = true
          → (connectionClose s).sentRaw = [encodeDisconnect]) := by
  refine ⟨rfl, rfl, fun p => rfl, fun p => rfl, fun p => rfl, fun m => rfl, rfl, rfl, ?_⟩
  intro s hs
  simp [connectionClose, hs]

/-- Witness for C10: closing a connected connection sends the DISCONNECT
bytes produced by `encodeDisconnect`. -/
theorem encodePacket_union_spec_witness :
    (connectionClose ⟨true, false⟩).sentRaw = [encodeDisconnect] :=
  encodePacket_union_spec.2.2.2.2.2.2.2.2 ⟨true, false⟩ rfl

/-! ### C2: variable-length integer -/

/-- `writeVariableInt` emits at least one byte (it is a do-while loop). -/
theorem writeVariableInt_length_pos (value : Nat) :
    0 < (writeVariableInt value).length := by
  rw [writeVariableInt]
  split <;> simp

/-- One-step unfolding: a value below 128 encodes as its single byte. -/
theorem writeVariableInt_small {v : Nat} (h : v < 128) :
    writeVariableInt v = [v % 128] := by
  rw [writeVariableInt, dif_pos (by omega)]

/-- One-step unfolding: a value of 128 or more emits its low 7 bits with
the continuation bit and recurses on the quotient. -/
theorem writeVariableInt_large {v : Nat} (h : 128 ≤ v) :
    writeVariableInt v = (v % 128 ||| 0x80) :: writeVariableInt (v / 128) := by
  rw [writeVariableInt, dif_neg (by omega)]

/-- Byte `i` of a variable-length-integer encoding holds the low 7 bits of
the value shifted right by `7 * i`, with the continuation bit 0x80 set
exactly when a nonzero value remains after a further shift by 7. -/
theorem writeVariableInt_getElem (value : Nat) :
    ∀ i, i < (writeVariableInt value).length →
      (writeVariableInt value)[i]?
        = some ((value >>> (7 * i)) % 128
            + (if value >>> (7 * (i + 1)) ≠ 0 then 0x80 else 0)) := by
  induction value using Nat.strong_induction_on with
  | _ value ih =>
    intro i hi
    by_cases hc : value / 128 = 0
    · rw [writeVariableInt, dif_pos hc] at hi ⊢
      simp only [List.length_singleton] at hi
      interval_cases i
      have h7 : value >>> (7 * (0 + 1)) = 0 := by
        rw [Nat.shiftRight_eq_div_pow]
        norm_num
        omega
      simp [h7, Nat.shiftRight_eq_div_pow]
    · rw [writeVariableInt, dif_neg hc] at hi ⊢
      rcases i with _ | i
      · have h7 : value >>> (7 * (0 + 1)) ≠ 0 := by
          rw [Nat.shiftRight_eq_div_pow]
          norm_num
          omega
        simp only [List.getElem?_cons_zero, if_pos h7]
        rw [or_128_of_lt (Nat.mod_lt _ (by norm_num))]
        norm_num [Nat.shiftRight_eq_div_pow]
      · simp only [List.getElem?_cons_succ]
        simp only [List.length_cons] at hi
        have hvpos : 0 < value := by
          rcases Nat.eq_zero_or_pos value with h0 | h0
          · exact absurd (by simp [h0]) hc
          · exact h0
        rw [ih (value / 128) (Nat.div_lt_self hvpos (by norm_num)) i (by omega)]
        have hdiv : value / 128 = value >>> 7 := by
          rw [Nat.shiftRight_eq_div_pow]
        have hshift : ∀ k : Nat, (value / 128) >>> (7 * k) = value >>> (7 * (k + 1)) := by
          intro k
          rw [hdiv, ← Nat.shiftRight_add]
          congr 1
          ring
        rw [hshift i, hshift (i + 1)]

/-- C2: reading back `writeVariableInt value` recovers `value` and consumes
exactly the emitted bytes for every `value ≤ 268435455`; each emitted byte
holds the low 7 bits of the remaining value with the 0x80 continuation bit
set exactly when a nonzero value remains after shifting right by 7; and the
eight boundary values occupy 1, 1, 2, 2, 3, 3, 4, 4 bytes. -/
theorem variable_int_spec :
    (∀ value : Nat, value ≤ 268435455 →
        readVariableInt (writeVariableInt value) 0
          = (value, (writeVariableInt value).length))
      ∧ (∀ value i : Nat, i < (writeVariableInt value).length →
          (writeVariableInt value)[i]?
            = some ((value >>> (7 * i)) % 128
                + (if value >>> (7 * (i + 1)) ≠ 0 then 0x80 else 0)))
      ∧ (writeVariableInt 0).length = 1 ∧ (writeVariableInt 127).length = 1
      ∧ (writeVariableInt 128).length = 2 ∧ (writeVariableInt 16383).length = 2
      ∧ (writeVariableInt 16384).length = 3 ∧ (writeVariableInt 2097151).length = 3
      ∧ (writeVariableInt 2097152).length = 4
      ∧ (writeVariableInt 268435455).length = 4 := by
  refine ⟨?_, writeVariableInt_getElem, ?_, ?_, ?_, ?_, ?_, ?_, ?_, ?_⟩
  · intro value _
    have h := readVariableInt_at [] [] value
    simpa using h
  · rw [writeVariableInt_small (by norm_num)]
    rfl
  · rw [writeVariableInt_small (by norm_num)]
    rfl
  · rw [writeVariableInt_large (by norm_num), show (128 : Nat) / 128 = 1 by norm_num,
      writeVariableInt_small (by norm_num)]
    rfl
  · rw [writeVariableInt_large (by norm_num), show (16383 : Nat) / 128 = 127 by norm_num,
      writeVariableInt_small (by norm_num)]
    rfl
  · rw [writeVariableInt_large (by norm_num), show (16384 : Nat) / 128 = 128 by norm_num,
      writeVariableInt_large (by norm_num), show (128 : Nat) / 128 = 1 by norm_num,
      writeVariableInt_small (by norm_num)]
    rfl
  · rw [writeVariableInt_large (by norm_num), show (2097151 : Nat) / 128 = 16383 by norm_num,
      writeVariableInt_large (by norm_num), show (16383 : Nat) / 128 = 127 by norm_num,
      writeVariableInt_small (by norm_num)]
    rfl
  · rw [writeVariableInt_large (by norm_num), show (2097152 : Nat) / 128 = 16384 by norm_num,
      writeVariableInt_large (by norm_num), show (16384 : Nat) / 128 = 128 by norm_num,
      writeVariableInt_large (by norm_num), show (128 : Nat) / 128 = 1 by norm_num,
      writeVariableInt_small (by norm_num)]
    rfl
  · rw [writeVariableInt_large (by norm_num), show (268435455 : Nat) / 128 = 2097151 by norm_num,
      writeVariableInt_large (by norm_num), show (2097151 : Nat) / 128 = 16383 by norm_num,
      writeVariableInt_large (by norm_num), show (16383 : Nat) / 128 = 127 by norm_num,
      writeVariableInt_small (by norm_num)]
    rfl

/-- Witness for C2 at the boundary value 128: the round-trip recovers 128
from its 2-byte encoding, and byte 0 is `0 % 128` with the continuation
bit set. -/
theorem variable_int_spec_witness :
    readVariableInt (writeVariableInt 128) 0 = (128, (writeVariableInt 128).length)
      ∧ (writeVariableInt 128)[0]?
          = some ((128 >>> (7 * 0)) % 128
              + (if (128 : Nat) >>> (7 * (0 + 1)) ≠ 0 then 0x80 else 0)) :=
  ⟨variable_int_spec.1 128 (by norm_num),
    variable_int_spec.2.1 128 0 (writeVariableInt_length_pos 128)⟩

/-! ### Reading back uint16 and string fields -/

/-- `readUint16` at a cursor sitting on an encoded uint16 recovers the
value when it fits in 16 bits. -/
theorem readUint16_at (pre suf : List Nat) (n : Nat) (hn : n < 65536) :
    readUint16 (pre ++ (writeUint16 n ++ suf)) pre.length = (n, pre.length + 2) := by
  have h0 : (pre ++ (writeUint16 n ++ suf))[pre.length]? = some ((n >>> 8) &&& 255) := by
    rw [List.getElem?_append_right (Nat.le_refl _)]
    simp [writeUint16]
  have h1 : (pre ++ (writeUint16 n ++ suf))[pre.length + 1]? = some (n &&& 255) := by
    rw [List.getElem?_append_right (by omega)]
    have : pre.length + 1 - pre.length = 1 := by omega
    rw [this]
    simp [writeUint16]
  simp only [readUint16, h0, h1, jsNum, Option.getD_some]
  rw [uint16_roundtrip hn]

/-- `readString` at the start of an encoded string recovers the bytes when
the length fits in 16 bits and the content is bytes. -/
theorem readString_write (s suf : List Nat) (h : s.length < 65536)
    (hb : ∀ b ∈ s, b < 256) :
    readString (writeString s ++ suf) 0 = (s, 2 + s.length) := by
  have hu := readUint16_at [] (writeBytes s ++ suf) s.length h
  simp only [List.nil_append, List.length_nil, Nat.zero_add] at hu
  have hlen : (jsNum (writeUint16 s.length ++ (writeBytes s ++ suf))[0]? <<< 8)
      ||| jsNum (writeUint16 s.length ++ (writeBytes s ++ suf))[1]? = s.length := by
    have := congrArg Prod.fst hu
    simpa [readUint16] using this
  simp only [readString, writeString, List.append_assoc, hlen, Prod.mk.injEq]
  refine ⟨?_, trivial⟩
  have hdrop : ((writeUint16 s.length ++ (writeBytes s ++ suf)).drop 2)
      = writeBytes s ++ suf := by
    have h2 : (writeUint16 s.length).length = 2 := by simp [writeUint16]
    rw [← h2, List.drop_left]
  rw [hdrop, ← writeBytes_length s, List.take_left, writeBytes_eq_self hb]

/-! ### C1: PUBLISH encode/decode round trip -/

/-- `writeString` emits a 2-byte prefix plus the content. -/
theorem writeString_length (s : List Nat) :
    (writeString s).length = 2 + s.length := by
  simp [writeString, writeUint16, writeBytes]
  omega

/-- The PUBLISH fixed-header flags byte: below 16, and its QoS, retain and
dup fields read back out for every QoS in 0..2. -/
theorem publishFlags_facts (p : PublishPacket) (hq : p.qos ≤ 2) :
    publishFlags p < 16
      ∧ (publishFlags p >>> 1) &&& 3 = p.qos
      ∧ (publishFlags p &&& 1 != 0) = p.retain
      ∧ (publishFlags p &&& 8 != 0) = p.dup := by
  obtain ⟨topic, payload, qos, retain, dup, messageId⟩ := p
  simp only at hq
  interval_cases qos <;> cases retain <;> cases dup <;> simp [publishFlags] <;> decide

/-- Decoding a `writePacket PUBLISH` frame whose body is a topic string, an
optional message-id field and raw payload bytes recovers every component
and consumes the whole frame. -/
theorem decode_writePacket_publish (topic payload mid : List Nat) (F qos : Nat)
    (midResult : Option Nat)
    (hF : F < 16)
    (hqos : (F >>> 1) &&& 3 = qos)
    (ht : topic.length ≤ 65535)
    (htb : ∀ b ∈ topic, b < 256)
    (hpb : ∀ b ∈ payload, b < 256)
    (hmid : (mid = [] ∧ midResult = none ∧ qos = 0)
      ∨ (∃ m, mid = writeUint16 m ∧ midResult = some m ∧ m < 65536 ∧ 0 < qos)) :
    decode (writePacket PacketType.PUBLISH F (writeString topic ++ mid ++ writeBytes payload))
      = .ok (some ⟨.publish topic payload qos (F &&& 1 != 0) (F &&& 8 != 0) midResult,
          (writePacket PacketType.PUBLISH F
            (writeString topic ++ mid ++ writeBytes payload)).length⟩) := by
  have hmidBytes : ∀ b ∈ mid, b < 256 := by
    rcases hmid with ⟨rfl, _, _⟩ | ⟨m, rfl, _, _, _⟩
    · simp
    · exact writeUint16_lt m
  have hbodyBytes : ∀ b ∈ writeString topic ++ mid ++ writeBytes payload, b < 256 := by
    intro b hb
    simp only [List.mem_append] at hb
    rcases hb with (hb | hb) | hb
    · exact writeString_lt topic b hb
    · exact hmidBytes b hb
    · exact writeBytes_lt payload b hb
  have hwB : writeBytes (writeString topic ++ mid ++ writeBytes payload)
      = writeString topic ++ mid ++ writeBytes payload := writeBytes_eq_self hbodyBytes
  have hF15 : F &&& 15 = F := by
    have h15 : (15 : Nat) = 2 ^ 4 - 1 := by norm_num
    rw [h15, Nat.and_pow_two_sub_one_eq_mod]
    exact Nat.mod_eq_of_lt (by omega)
  have hhdr : (PacketType.PUBLISH <<< 4) ||| (F &&& 0x0f) = 48 + F := by
    have h2 := Nat.mul_add_lt_is_or (show F < 2 ^ 4 by omega) 3
    norm_num at h2
    rw [hF15]
    have h3 : PacketType.PUBLISH <<< 4 = 48 := by norm_num [PacketType.PUBLISH, Nat.shiftLeft_eq]
    rw [h3]
    omega
  have hwByte : writeByte ((PacketType.PUBLISH <<< 4) ||| (F &&& 0x0f)) = [48 + F] := by
    simp only [writeByte, hhdr]
    rw [Nat.mod_eq_of_lt (by omega)]
  have henc : writePacket PacketType.PUBLISH F (writeString topic ++ mid ++ writeBytes payload)
      = [48 + F] ++ (writeVariableInt (writeString topic ++ mid ++ writeBytes payload).length
          ++ (writeString topic ++ mid ++ writeBytes payload)) := by
    simp only [writePacket, hwByte, hwB]
    rw [List.append_assoc]
  rw [henc]
  set B := writeString topic ++ mid ++ writeBytes payload with hBdef
  set L := B.length with hLdef
  set W := writeVariableInt L with hWdef
  have hWpos : 0 < W.length := writeVariableInt_length_pos L
  have hlen : ([48 + F] ++ (W ++ B)).length = 1 + (W.length + L) := by
    simp only [List.length_append, List.length_cons, List.length_nil, hLdef]
    try omega
  have h0 : ([48 + F] ++ (W ++ B))[0]? = some (48 + F) := by
    rw [List.getElem?_append_left (by simp)]
    rfl
  have hshift4 : (48 + F) >>> 4 = 3 := by
    rw [Nat.shiftRight_eq_div_pow]
    norm_num
    omega
  have hand15 : (48 + F) &&& 15 = F := by
    have h15 : (15 : Nat) = 2 ^ 4 - 1 := by norm_num
    rw [h15, Nat.and_pow_two_sub_one_eq_mod]
    omega
  have hvar : readVariableInt ([48 + F] ++ (W ++ B)) 1 = (L, 1 + W.length) := by
    have h := readVariableInt_at [48 + F] B L
    rw [← hWdef] at h
    simpa only [List.length_singleton] using h
  have hdrop : ([48 + F] ++ (W ++ B)).drop (1 + W.length) = B := by
    have hpre : ([48 + F] ++ W).length = 1 + W.length := by
      simp only [List.length_append, List.length_singleton]
      try omega
    rw [← List.append_assoc, ← hpre, List.drop_left]
  simp only [decode, hlen, h0, jsNum, Option.getD_some, hshift4, hand15, hvar,
    readBytes]
  rw [if_neg (by omega), if_neg (by omega)]
  rw [hdrop, hLdef, List.take_length]
  have hdisp : dispatch 3 F B = .ok (decodePublish B F) := by
    simp [dispatch, PacketType.CONNACK, PacketType.SUBACK, PacketType.PUBLISH]
  have hpub : decodePublish B F
      = .publish topic payload qos (F &&& 1 != 0) (F &&& 8 != 0) midResult := by
    rcases hmid with ⟨hmnil, hmres, hq0⟩ | ⟨m, hmeq, hmres, hm16, hqpos⟩
    · subst hmnil hmres hq0
      have hstr : readString B 0 = (topic, 2 + topic.length) := by
        rw [hBdef]
        simp only [List.append_nil, List.append_assoc, List.nil_append]
        exact readString_write topic (writeBytes payload) (by omega) htb
      have hrest : (readRest B (2 + topic.length)).1 = payload := by
        simp only [readRest, hBdef, List.append_nil]
        rw [← writeString_length topic, List.drop_left, writeBytes_eq_self hpb]
      simp only [decodePublish, hstr, hqos, hrest]
      rw [if_neg (by omega)]
    · subst hmeq hmres
      have hstr : readString B 0 = (topic, 2 + topic.length) := by
        rw [hBdef]
        simp only [List.append_assoc]
        exact readString_write topic (writeUint16 m ++ writeBytes payload) (by omega) htb
      have hm : readUint16 B (2 + topic.length) = (m, 2 + topic.length + 2) := by
        have := readUint16_at (writeString topic) (writeBytes payload) m hm16
        rw [writeString_length] at this
        simpa [hBdef, List.append_assoc] using this
      have hrest : (readRest B (2 + topic.length + 2)).1 = payload := by
        simp only [readRest, hBdef]
        have hpre : (writeString topic ++ writeUint16 m).length
            = 2 + topic.length + 2 := by
          simp [writeString_length, writeUint16]
        rw [List.append_assoc, ← List.append_assoc (writeString topic), ← hpre,
          List.drop_left, writeBytes_eq_self hpb]
      simp only [decodePublish, hstr, hqos, hm, hrest]
      rw [if_pos hqpos]
  rw [hdisp, hpub]
  simp [Nat.add_assoc]

/-- C1: `decode` inverts `encodePublish` for every PUBLISH packet with QoS
in 0..2, a 16-bit message id present exactly when QoS is positive, a topic
of at most 65535 UTF-8 bytes and a body of at most 268435455 bytes,
consuming exactly the encoded frame; in particular the bytes
`[0x30, 0x04, 0x00, 0x01, 0x61, 0x62]` decode to a QoS 0 PUBLISH with
topic "a" and payload `[0x62]`. -/
theorem publish_roundtrip :
    (∀ p : PublishPacket,
        p.qos ≤ 2 →
        (p.messageId = none ↔ p.qos = 0) →
        (∀ m, p.messageId = some m → m < 65536) →
        p.topic.length ≤ 65535 →
        (∀ b ∈ p.topic, b < 256) →
        (∀ b ∈ p.payload, b < 256) →
        2 + p.topic.length + (if 0 < p.qos then 2 else 0) + p.payload.length ≤ 268435455 →
        decode (encodePublish p)
          = .ok (some ⟨.publish p.topic p.payload p.qos p.retain p.dup p.messageId,
              (encodePublish p).length⟩))
      ∧ decode [0x30, 0x04, 0x00, 0x01, 0x61, 0x62]
          = .ok (some ⟨.publish [0x61] [0x62] 0 false false none, 6⟩) := by
  refine ⟨?_, rfl⟩
  intro p hq hmid hm16 ht htb hpb _hbody
  obtain ⟨hFlt, hFq, hFr, hFd⟩ := publishFlags_facts p hq
  obtain ⟨topic, payload, qos, retain, dup, messageId⟩ := p
  simp only at hq hmid hm16 ht htb hpb hFlt hFq hFr hFd ⊢
  rcases messageId with _ | m
  · have hq0 : qos = 0 := hmid.mp rfl
    subst hq0
    have h := decode_writePacket_publish topic payload []
      (publishFlags ⟨topic, payload, 0, retain, dup, none⟩) 0 none hFlt hFq ht htb hpb
      (Or.inl ⟨rfl, rfl, rfl⟩)
    simp only [encodePublish, List.append_nil] at h ⊢
    rw [h, hFr, hFd]
  · have hq0 : qos ≠ 0 := by
      intro h0
      exact Option.some_ne_none m (hmid.mpr h0)
    have hqpos : 0 < qos := Nat.pos_of_ne_zero hq0
    have h := decode_writePacket_publish topic payload (writeUint16 m)
      (publishFlags ⟨topic, payload, qos, retain, dup, some m⟩) qos (some m) hFlt hFq ht htb hpb
      (Or.inr ⟨m, rfl, rfl, hm16 m rfl, hqpos⟩)
    simp only [encodePublish, if_pos hqpos] at h ⊢
    rw [h, hFr, hFd]

/-- Witness for C1 at a concrete QoS 1 PUBLISH with topic "a" (byte 0x61),
payload `[0x62]` and message id 7. -/
theorem publish_roundtrip_witness :
    decode (encodePublish ⟨[0x61], [0x62], 1, true, false, some 7⟩)
      = .ok (some ⟨.publish [0x61] [0x62] 1 true false (some 7),
          (encodePublish ⟨[0x61], [0x62], 1, true, false, some 7⟩).length⟩) :=
  publish_roundtrip.1 ⟨[0x61], [0x62], 1, true, false, some 7⟩ (by norm_num)
    (by simp) (by simp) (by norm_num) (by simp) (by simp) (by norm_num)

/-! ### C4: batch decoding

The do-while loop of `readVariableInt` reads a byte-by-byte prefix of the
buffer, so its result is stable under appending further bytes (when it
stopped in bounds) and under truncation (at or after its stop position);
when truncated before its stop position it runs off the end. -/

theorem readVariableIntAux_extend (l : List Nat) :
    ∀ (t : List Nat) (acc multiplier : Nat),
      (readVariableIntAux l acc multiplier).2 ≤ l.length →
      readVariableIntAux (l ++ t) acc multiplier = readVariableIntAux l acc multiplier := by
  induction l with
  | nil =>
    intro t acc multiplier h
    simp [readVariableIntAux] at h
  | cons byte rest ih =>
    intro t acc multiplier h
    by_cases hc : byte &&& 0x80 ≠ 0
    · simp only [readVariableIntAux, List.cons_append, List.length_cons, if_pos hc] at h ⊢
      simp only [List.append_eq]
      rw [ih t (acc + (byte &&& 0x7f) * multiplier) (multiplier * 128) (by omega)]
    · simp only [readVariableIntAux, List.cons_append, if_neg hc]

theorem readVariableIntAux_take (l : List Nat) :
    ∀ (k acc multiplier : Nat),
      (readVariableIntAux l acc multiplier).2 ≤ k →
      readVariableIntAux (l.take k) acc multiplier
        = readVariableIntAux l acc multiplier := by
  induction l with
  | nil =>
    intro k acc multiplier _
    simp
  | cons byte rest ih =>
    intro k acc multiplier h
    simp only [readVariableIntAux] at h
    split at h
    case isTrue hc =>
      rcases k with _ | j
      · simp at h
      · simp only [List.take_succ_cons, readVariableIntAux, if_pos hc]
        rw [ih j _ _ (by omega)]
    case isFalse hc =>
      rcases k with _ | j
      · simp at h
      · simp only [List.take_succ_cons, readVariableIntAux, if_neg hc]

theorem readVariableIntAux_take_overrun (l : List Nat) :
    ∀ (k acc multiplier : Nat),
      k < (readVariableIntAux l acc multiplier).2 →
      (readVariableIntAux (l.take k) acc multiplier).2 = k + 1 := by
  induction l with
  | nil =>
    intro k acc multiplier h
    simp only [readVariableIntAux] at h
    simp [readVariableIntAux]
    omega
  | cons byte rest ih =>
    intro k acc multiplier h
    rcases k with _ | j
    · simp [readVariableIntAux]
    · simp only [readVariableIntAux] at h
      split at h
      case isTrue hc =>
        simp only [List.take_succ_cons, readVariableIntAux, if_pos hc]
        rw [ih j _ _ (by omega)]
      case isFalse hc =>
        simp at h

/-- Inversion of a successful whole-buffer decode: the buffer is at least
2 bytes, the consumed count is exactly the declared total length (which
equals the buffer length), and the payload dispatch succeeded. -/
theorem decode_ok_inv (b : List Nat) (p : IncomingPacket)
    (h : decode b = .ok (some ⟨p, b.length⟩)) :
    ¬ b.length < 2
      ∧ b.length = (readVariableInt b 1).2 + (readVariableInt b 1).1
      ∧ dispatch (jsNum b[0]? >>> 4) (jsNum b[0]? &&& 0x0f)
          ((readBytes b (readVariableInt b 1).2 (readVariableInt b 1).1).1) = .ok p := by
  have hlen2 : ¬ b.length < 2 := by
    intro hl
    rw [decode, if_pos hl] at h
    exact absurd h (by simp)
  have hguard : ¬ b.length < (readVariableInt b 1).2 + (readVariableInt b 1).1 := by
    intro hl
    simp only [decode, if_neg hlen2] at h
    rw [if_pos hl] at h
    exact absurd h (by simp)
  simp only [decode, if_neg hlen2] at h
  rw [if_neg hguard] at h
  split at h
  · exact absurd h (by simp)
  case _ packet heq =>
    have h' := Option.some.inj (Except.ok.inj h)
    have hpk : packet = p := congrArg DecodeResult.packet h'
    have hbc : (readVariableInt b 1).2 + (readVariableInt b 1).1 = b.length :=
      congrArg DecodeResult.bytesConsumed h'
    subst hpk
    exact ⟨hlen2, hbc.symm, heq⟩

/-- A complete encoded packet still decodes to itself, consuming the same
count, when further bytes follow it. -/
theorem decode_extend (b t : List Nat) (p : IncomingPacket)
    (h : decode b = .ok (some ⟨p, b.length⟩)) :
    decode (b ++ t) = .ok (some ⟨p, b.length⟩) := by
  obtain ⟨hlen2, htot, hdisp⟩ := decode_ok_inv b p h
  have hauxle : (readVariableIntAux (b.drop 1) 0 1).2 ≤ (b.drop 1).length := by
    have h1 : (readVariableInt b 1).2 = 1 + (readVariableIntAux (b.drop 1) 0 1).2 := rfl
    simp only [List.length_drop]
    omega
  have hdrop1 : (b ++ t).drop 1 = b.drop 1 ++ t :=
    List.drop_append_of_le_length (by omega)
  have hvar : readVariableInt (b ++ t) 1 = readVariableInt b 1 := by
    simp only [readVariableInt, hdrop1, readVariableIntAux_extend _ _ _ _ hauxle]
  have h0 : (b ++ t)[0]? = b[0]? := List.getElem?_append_left (by omega)
  have hpay : (readBytes (b ++ t) (readVariableInt b 1).2 (readVariableInt b 1).1).1
      = (readBytes b (readVariableInt b 1).2 (readVariableInt b 1).1).1 := by
    simp only [readBytes]
    rw [List.drop_append_of_le_length (by omega)]
    have hdl : (b.drop (readVariableInt b 1).2).length = (readVariableInt b 1).1 := by
      simp only [List.length_drop]
      omega
    rw [← hdl, List.take_left, List.take_length]
  simp only [decode, hvar, h0, hpay]
  rw [if_neg (by simp; omega), if_neg (by simp; omega)]
  rw [hdisp]
  rw [htot]

/-- A proper prefix of a complete encoded packet decodes to the incomplete
indicator. -/
theorem decode_prefix_incomplete (b : List Nat) (p : IncomingPacket)
    (h : decode b = .ok (some ⟨p, b.length⟩)) (k : Nat) (hk : k < b.length) :
    decode (b.take k) = .ok none := by
  obtain ⟨hlen2, htot, _⟩ := decode_ok_inv b p h
  have hlentake : (b.take k).length = k := by
    simp only [List.length_take]
    omega
  by_cases hk2 : k < 2
  · rw [decode, if_pos (by omega)]
  · have hdroptake : (b.take k).drop 1 = (b.drop 1).take (k - 1) := List.drop_take ..
    by_cases hn : (readVariableInt b 1).2 ≤ k
    · have hauxle : (readVariableIntAux (b.drop 1) 0 1).2 ≤ k - 1 := by
        have h1 : (readVariableInt b 1).2 = 1 + (readVariableIntAux (b.drop 1) 0 1).2 := rfl
        omega
      have hvar : readVariableInt (b.take k) 1 = readVariableInt b 1 := by
        simp only [readVariableInt, hdroptake,
          readVariableIntAux_take _ _ _ _ hauxle]
      simp only [decode, hvar]
      rw [if_neg (by omega), if_pos (by omega)]
    · have hover : (readVariableIntAux ((b.drop 1).take (k - 1)) 0 1).2 = (k - 1) + 1 := by
        apply readVariableIntAux_take_overrun
        have h1 : (readVariableInt b 1).2 = 1 + (readVariableIntAux (b.drop 1) 0 1).2 := rfl
        omega
      have hvar2 : (readVariableInt (b.take k) 1).2 = 1 + ((k - 1) + 1) := by
        simp only [readVariableInt, hdroptake, hover]
      simp only [decode]
      rw [if_neg (by omega), if_pos (by omega)]

/-- The batch-decode loop over a concatenation of complete packets followed
by an incomplete remainder collects exactly those packets and returns the
remainder. -/
theorem decodeAllLoop_spec (chunks : List (List Nat)) (ps : List IncomingPacket)
    (hcp : List.Forall₂ (fun c q => decode c = .ok (some ⟨q, c.length⟩)) chunks ps)
    (r : List Nat) (hr : decode r = .ok none) :
    ∀ (bytes : List Nat) (offset : Nat) (acc : List IncomingPacket),
      bytes.drop offset = chunks.flatten ++ r → offset ≤ bytes.length →
      decodeAllLoop bytes offset acc = .ok (acc ++ ps, r) := by
  induction hcp with
  | nil =>
    intro bytes offset acc hdrop hoff
    simp only [List.flatten_nil, List.nil_append] at hdrop
    rw [decodeAllLoop]
    split
    case isTrue hlt =>
      rw [hdrop, hr]
      simp
    case isFalse hlt =>
      rw [hdrop]
      simp
  | cons hcq hrest ih =>
    intro bytes offset acc hdrop hoff
    rename_i c q chunks' ps'
    have hclen : ¬ c.length < 2 := (decode_ok_inv c q hcq).1
    have hlen := congrArg List.length hdrop
    simp only [List.length_drop, List.flatten_cons, List.length_append] at hlen
    have hlt : offset < bytes.length := by omega
    have hdec : decode (bytes.drop offset) = .ok (some ⟨q, c.length⟩) := by
      rw [hdrop, List.flatten_cons, List.append_assoc]
      exact decode_extend c (chunks'.flatten ++ r) q hcq
    rw [decodeAllLoop, dif_pos hlt, hdec]
    show decodeAllLoop bytes (offset + c.length) (acc ++ [q]) = .ok (acc ++ q :: ps', r)
    have hnext : bytes.drop (offset + c.length) = chunks'.flatten ++ r := by
      have hdd : bytes.drop (offset + c.length) = (bytes.drop offset).drop c.length := by
        rw [List.drop_drop]
        try (congr 1; omega)
      rw [hdd, hdrop, List.flatten_cons, List.append_assoc, List.drop_left]
    have hoff2 : offset + c.length ≤ bytes.length := by omega
    rw [ih bytes (offset + c.length) (acc ++ [q]) hnext hoff2]
    simp

/-- C4: `decodeAll`, applied to the concatenation of complete encoded
packets followed by a proper prefix of a further complete packet, returns
exactly those packets in order with the trailing prefix as remainder; and a
proper prefix of a complete packet always decodes as incomplete, so the
loop stops there. -/
theorem decodeAll_batch_spec :
    (∀ (chunks : List (List Nat)) (ps : List IncomingPacket) (r : List Nat),
        List.Forall₂ (fun c q => decode c = .ok (some ⟨q, c.length⟩)) chunks ps →
        decode r = .ok none →
        decodeAll (chunks.flatten ++ r) = .ok (ps, r))
      ∧ (∀ (b : List Nat) (p : IncomingPacket),
          decode b = .ok (some ⟨p, b.length⟩) →
          ∀ k, k < b.length → decode (b.take k) = .ok none) := by
  constructor
  · intro chunks ps r hcp hr
    have h := decodeAllLoop_spec chunks ps hcp r hr (chunks.flatten ++ r) 0 [] (by simp)
      (by simp)
    simpa [decodeAll] using h
  · exact decode_prefix_incomplete

/-- Witness for C4: three complete packets (CONNACK, PINGRESP, PUBACK)
followed by the first three bytes of a PUBLISH frame decode to exactly
those three packets with the partial PUBLISH as remainder. -/
theorem decodeAll_batch_spec_witness :
    decodeAll ([[0x20, 0x02, 0x00, 0x00], [0xd0, 0x00],
        [0x40, 0x02, 0x00, 0x2a]].flatten ++ [0x30, 0x04, 0x00])
      = .ok ([.connack false (some 0), .pingresp, .puback 42], [0x30, 0x04, 0x00]) :=
  decodeAll_batch_spec.1 [[0x20, 0x02, 0x00, 0x00], [0xd0, 0x00], [0x40, 0x02, 0x00, 0x2a]]
    [.connack false (some 0), .pingresp, .puback 42] [0x30, 0x04, 0x00]
    (by refine List.Forall₂.cons rfl (List.Forall₂.cons rfl (List.Forall₂.cons rfl ?_))
        exact List.Forall₂.nil)
    rfl

end WsMqtt
